import Mathlib

/-!
Verification of the stats reporting pipeline: the extraction side
(DefaultStatsFactoryPlugin, given as src/unnamed/part_000) and the printing
side (src/lib/stats/DefaultStatsPrinterPlugin.js).  JavaScript objects used
as string-keyed records are embedded as association lists with JS
assignment semantics (overwrite in place, otherwise append); handler
dispatch, ordering, merging and table rendering are embedded as pure
functions translated from the source.
-/

/-- JS property assignment `obj[k] = v` on a plain object: if the key is
already present its value is replaced in place, otherwise the pair is
appended at the end (JS insertion order). -/
def jsInsert {α : Type} (obj : List (String × α)) (k : String) (v : α) :
    List (String × α) :=
  if obj.any (fun p => p.1 == k) then
    obj.map (fun p => if p.1 == k then (k, v) else p)
  else
    obj ++ [(k, v)]

/-- JS property read `obj[k]`: the value stored under the first matching
key, if any. -/
def jsLookup {α : Type} (obj : List (String × α)) (k : String) : Option α :=
  (obj.find? (fun p => p.1 == k)).map (fun p => p.2)

theorem jsLookup_cons {α : Type} (q : String × α) (l : List (String × α))
    (k : String) :
    jsLookup (q :: l) k = if q.1 = k then some q.2 else jsLookup l k := by
  by_cases h : q.1 = k <;> simp [jsLookup, List.find?_cons, h]

theorem jsLookup_map_replace {α : Type} (o : List (String × α))
    (k k' : String) (v : α) :
    jsLookup (o.map (fun p => if p.1 == k then (k, v) else p)) k' =
      if k' = k then
        (if o.any (fun p => p.1 == k) then some v else none)
      else jsLookup o k' := by
  induction o with
  | nil => simp [jsLookup]
  | cons p o ih =>
      have hmap : (p :: o).map (fun q => if q.1 == k then (k, v) else q)
          = (if p.1 == k then (k, v) else p) ::
            o.map (fun q => if q.1 == k then (k, v) else q) := rfl
      rw [hmap]
      by_cases h1 : p.1 = k
      · rw [if_pos (by simpa using h1), jsLookup_cons, jsLookup_cons, ih]
        by_cases h2 : k' = k
        · simp [h1, h2, List.any_cons]
        · have hsym : ¬(k = k') := fun hh => h2 hh.symm
          have hp : p.1 ≠ k' := fun hh => h2 (hh.symm.trans h1)
          simp [h2, hsym, hp]
      · rw [if_neg (by simpa using h1), jsLookup_cons, jsLookup_cons, ih]
        by_cases h3 : p.1 = k'
        · have h2 : ¬(k' = k) := fun hh => h1 (h3.trans hh)
          simp [h3, h2]
        · by_cases h2 : k' = k
          · have hb : (p.1 == k) = false := by simpa using h1
            simp only [h2, if_pos, jsLookup_cons, h1, ite_false, h3]
            rw [List.any_cons, hb, Bool.false_or]
          · simp [h3, h2, h1]

theorem jsLookup_append_single {α : Type} (o : List (String × α))
    (k k' : String) (v : α)
    (h : o.any (fun p => p.1 == k) = false) :
    jsLookup (o ++ [(k, v)]) k' =
      if k' = k then some v else jsLookup o k' := by
  induction o with
  | nil =>
      by_cases h2 : k' = k
      · simp [jsLookup_cons, h2, jsLookup]
      · have hsym : ¬(k = k') := fun hh => h2 hh.symm
        simp [jsLookup_cons, h2, hsym, jsLookup]
  | cons p o ih =>
      simp only [List.any_cons, Bool.or_eq_false_iff] at h
      rw [List.cons_append, jsLookup_cons, jsLookup_cons]
      by_cases hp : p.1 = k'
      · have hpk : p.1 ≠ k := by
          intro hh
          simp [hh] at h
        have hk : ¬(k' = k) := fun hkk => hpk (hp.trans hkk)
        simp [hp, hk]
      · simp [hp, ih h.2]

/-- Key rewriting law for jsInsert: the written key now holds the new value
and every other key is untouched. -/
theorem lookup_jsInsert {α : Type} (o : List (String × α)) (k k' : String)
    (v : α) :
    jsLookup (jsInsert o k v) k' = if k' = k then some v else jsLookup o k' := by
  by_cases h : (o.any (fun p => p.1 == k)) = true
  · rw [jsInsert, if_pos h, jsLookup_map_replace]
    simp [h]
  · have hfalse : (o.any (fun p => p.1 == k)) = false := by
      simp only [Bool.not_eq_true] at h
      exact h
    rw [jsInsert, if_neg h]
    exact jsLookup_append_single o k k' v hfalse

/-- Generic shape of the push-into-accumulator loops used by the config
walker: folding a conditional push equals appending the filtered map. -/
theorem foldl_push_filter {α β : Type} (c : α → Bool) (g : α → β) :
    ∀ (l : List α) (acc : List β),
      l.foldl (fun acc e => if c e then acc ++ [g e] else acc) acc
        = acc ++ (l.filter c).map g := by
  intro l
  induction l with
  | nil => intro acc; simp
  | cons e l ih =>
      intro acc
      by_cases h : c e <;> simp [List.foldl_cons, h, ih, List.filter_cons]

theorem foldl_append_flatMap {α β : Type} (F : α → List β) :
    ∀ (l : List α) (acc : List β),
      l.foldl (fun acc x => acc ++ F x) acc = acc ++ l.flatMap F := by
  intro l
  induction l with
  | nil => intro acc; simp
  | cons x l ih => intro acc; simp [List.foldl_cons, ih]

/-- Embedding of iterateConfig from src/unnamed/part_000.  The config is a
list of hookFor keys paired with their option-keyed sub-config (both in JS
object key order); options is the truthiness of each option key.  The
result lists, in call order, the (hookFor, handler) pairs the walker hands
to fn: a handler runs when its option key is the unconditional key or its
options value is truthy. -/
def iterateConfig {H : Type} (config : List (String × List (String × H)))
    (options : String → Bool) : List (String × H) :=
  config.foldl (fun calls sub =>
    sub.2.foldl (fun calls entry =>
      if entry.1 == "_" || options entry.1 then calls ++ [(sub.1, entry.2)]
      else calls) calls) []

theorem iterateConfig_eq {H : Type}
    (config : List (String × List (String × H))) (options : String → Bool) :
    iterateConfig config options =
      config.flatMap (fun sub =>
        (sub.2.filter (fun entry => entry.1 == "_" || options entry.1)).map
          (fun entry => (sub.1, entry.2))) := by
  unfold iterateConfig
  have h : (fun (calls : List (String × H))
          (sub : String × List (String × H)) =>
        sub.2.foldl (fun calls entry =>
          if entry.1 == "_" || options entry.1 then calls ++ [(sub.1, entry.2)]
          else calls) calls)
      = fun calls sub => calls ++
          ((sub.2.filter (fun entry => entry.1 == "_" || options entry.1)).map
            (fun entry => (sub.1, entry.2))) := by
    funext calls sub
    exact foldl_push_filter _ _ _ _
  rw [h, foldl_append_flatMap]
  simp

/-- C1: for every extractor configuration and Options object, the config
walker invokes a handler registered under an option key iff that key is
the unconditional key or its value in Options is truthy, and with an
all-falsy (empty) Options object exactly the unconditional handlers run. -/
theorem claim_C1_gating :
    (∀ (H : Type) (config : List (String × List (String × H)))
        (options : String → Bool),
      iterateConfig config options =
        config.flatMap (fun sub =>
          (sub.2.filter (fun entry => entry.1 == "_" || options entry.1)).map
            (fun entry => (sub.1, entry.2)))) ∧
    iterateConfig [("compilation", [("_", 0), ("hash", 1)])] (fun _ => false)
      = [("compilation", 0)] :=
  ⟨fun _ config options => iterateConfig_eq config options, by decide⟩

/-- One element of the lists collapsed by mergeToObject: a name key plus a
payload field, mirroring the items of the merge test. -/
structure NamedItem where
  name : String
  v : Int
deriving DecidableEq

/-- Embedding of mergeToObject from src/unnamed/part_000: successively
perform obj[item.name] = item over the item list, starting from an empty
object. -/
def mergeToObject (items : List NamedItem) : List (String × NamedItem) :=
  items.foldl (fun obj item => jsInsert obj item.name item) []

theorem mergeToObject_fold_lookup :
    ∀ (items : List NamedItem) (obj : List (String × NamedItem)) (n : String),
      jsLookup (items.foldl (fun obj item => jsInsert obj item.name item) obj) n
        = ((items.filter (fun i => i.name == n)).getLast?).or (jsLookup obj n) := by
  intro items
  induction items with
  | nil => intro obj n; simp
  | cons i items ih =>
      intro obj n
      rw [List.foldl_cons, ih, lookup_jsInsert, List.filter_cons]
      by_cases hi : i.name = n
      · have hn : n = i.name := hi.symm
        rw [if_pos hn, if_pos (show (i.name == n) = true by simpa using hi),
          List.getLast?_cons]
        cases hl : (items.filter (fun i => i.name == n)).getLast? with
        | none => simp [hl]
        | some j => simp [hl]
      · have hn : ¬(n = i.name) := fun hh => hi hh.symm
        rw [if_neg hn, if_neg (show ¬((i.name == n) = true) by simpa using hi)]

/-- C4: mergeToObject turns an ordered list of named items into a
name-keyed mapping in which each name is bound to the last item bearing
it, so the listed example merges as stated and on duplicate names the
later item silently wins. -/
theorem claim_C4_merge :
    (∀ (items : List NamedItem) (n : String),
        jsLookup (mergeToObject items) n
          = (items.filter (fun i => i.name == n)).getLast?) ∧
    jsLookup (mergeToObject [⟨"x", 1⟩, ⟨"y", 2⟩]) "x" = some ⟨"x", 1⟩ ∧
    jsLookup (mergeToObject [⟨"x", 1⟩, ⟨"y", 2⟩]) "y" = some ⟨"y", 2⟩ ∧
    jsLookup (mergeToObject [⟨"x", 1⟩, ⟨"x", 2⟩]) "x" = some ⟨"x", 2⟩ := by
  refine ⟨fun items n => ?_, by decide, by decide, by decide⟩
  rw [mergeToObject, mergeToObject_fold_lookup]
  simp [jsLookup]

theorem foldl_pair_filter {α : Type} (c : α → Bool) :
    ∀ (l : List α) (a b : List α),
      l.foldl (fun (acc : List α × List α) e =>
          if c e then (acc.1 ++ [e], acc.2 ++ [e]) else acc) (a, b)
        = (a ++ l.filter c, b ++ l.filter c) := by
  intro l
  induction l with
  | nil => intro a b; simp
  | cons e l ih =>
      intro a b
      by_cases h : c e <;> simp [List.foldl_cons, h, ih, List.filter_cons]

theorem foldl_skip_filter {α : Type} (d : α → Bool) :
    ∀ (l : List α) (out : List α),
      l.foldl (fun out e => if d e then out else out ++ [e]) out
        = out ++ l.filter (fun e => !(d e)) := by
  intro l
  induction l with
  | nil => intro out; simp
  | cons e l ih =>
      intro out
      by_cases h : d e <;> simp [List.foldl_cons, h, ih, List.filter_cons]

/-- JS element.endsWith check specialised to the one reserved suffix
character used by createOrder: true when the last character of the string
is the exclamation mark. -/
def endsWithBang (s : String) : Bool := s.data.getLast? == some (Char.ofNat 33)

/-- Embedding of createOrder from DefaultStatsPrinterPlugin.js: walk the
preferred order, pushing every entry that is a reserved pseudo-entry or
occurs in the present array while recording it in the used set; then
append the original entries that are not in the used set, in original
order. -/
def createOrder (array preferedOrder : List String) : List String :=
  let originalArray := array
  let start := preferedOrder.foldl
    (fun (acc : List String × List String) element =>
      if endsWithBang element || array.contains element then
        (acc.1 ++ [element], acc.2 ++ [element])
      else acc) ([], [])
  originalArray.foldl
    (fun out element =>
      if start.2.contains element then out else out ++ [element])
    start.1

/-- C3: createOrder yields the preferred entries that are present or are
reserved pseudo-entries (the latter always included even if absent from
the present list) in preferred order, followed by the remaining present
fields in their original order; the listed example evaluates as stated. -/
theorem claim_C3_order :
    (∀ (present preferred : List String),
        createOrder present preferred =
          preferred.filter
              (fun e => endsWithBang e || present.contains e) ++
            present.filter (fun e => !(preferred.contains e))) ∧
    createOrder ["b", "a", "z"] ["a", "b"] = ["a", "b", "z"] := by
  refine ⟨fun present preferred => ?_, by decide⟩
  simp only [createOrder]
  rw [foldl_pair_filter, foldl_skip_filter]
  simp only [List.nil_append]
  congr 1
  refine List.filter_congr ?_
  intro e he
  have hce : (endsWithBang e || present.contains e) = true := by
    simp only [Bool.or_eq_true]
    right
    simpa using he
  have hfc : ((preferred.filter
        (fun e => endsWithBang e || present.contains e)).contains e)
      = (preferred.contains e && (endsWithBang e || present.contains e)) := by
    simp only [List.contains, List.elem_eq_mem, List.mem_filter,
      Bool.decide_and, Bool.decide_eq_true]
  rw [hfc, hce, Bool.and_true]

/-- Space padding of the given width. -/
def spaces (n : Nat) : String := String.mk (List.replicate n ' ')

/-- JS read array[row][col] followed by template interpolation: a missing
cell interpolates the undefined value to the string "undefined". -/
def cellValue (row : List String) (col : Nat) : String := row.getD col "undefined"

/-- One cell of a table line, following the per-column body of the table
loop in DefaultStatsPrinterPlugin.js: left alignment writes the value
first, the padding loop pads from the value length up to the column width
unless the column is the last one, and right alignment writes the value
after the padding. -/
def tableCell (value : String) (colSize : Nat) (alignc : Option Char)
    (isLast : Bool) : String :=
  (if alignc = some 'l' then value else "")
    ++ spaces (if isLast then 0 else colSize - value.length)
    ++ (if alignc = some 'r' then value else "")

/-- Column widths: the maximum interpolated cell width of each column,
starting from zero. -/
def computeColSizes (array : List (List String)) (cols : Nat) : List Nat :=
  (List.range cols).map (fun col =>
    array.foldl (fun m row => max m (cellValue row col).length) 0)

/-- One output line of the table: the padded cells, each followed by the
splitter (default two spaces) when the column is not the final one and
its width is nonzero. -/
def tableLine (row : List String) (colSizes : List Nat) (align : List Char)
    (cols : Nat) (splitter : Option String) : String :=
  String.join ((List.range cols).map (fun col =>
    tableCell (cellValue row col) (colSizes.getD col 0) (align.get? col)
        (decide (col = cols - 1))
      ++ (if col + 1 < cols ∧ colSizes.getD col 0 ≠ 0
          then splitter.getD "  " else "")))

/-- Embedding of table from DefaultStatsPrinterPlugin.js.  The JS function
reads array[0].length before anything else, so an empty rows array throws
a TypeError, modelled as the error case; otherwise it builds the padded
lines and joins them with newlines. -/
def table (array : List (List String)) (align : List Char)
    (splitter : Option String) : Except String String :=
  match array with
  | [] => Except.error "TypeError: cannot read length of undefined"
  | first :: rest =>
      let all := first :: rest
      let cols := first.length
      let colSizes := computeColSizes all cols
      Except.ok (String.intercalate "\n"
        (all.map (fun row => tableLine row colSizes align cols splitter)))

/-- C2 counterexample: on the example of the claim the actual output of
table leaves the final right-aligned column unpadded, so column 1 is not
left-padded to width 2 as the claim asserts. -/
theorem claim_C2_counterexample :
    table [["a", "bb"], ["ccc", "d"]] ['l', 'r'] none
        = Except.ok "a    bb\nccc  d" ∧
      ("a    bb\nccc  d" : String) ≠ "a    bb\nccc   d" :=
  ⟨rfl, by decide⟩

/-- C2 amended: on the example, column 0 is right-padded to width 3 with
the default two-space gap while the final column receives no padding at
all; in general a right-aligned cell in a non-final column is padded on
the left and a left-aligned cell in a non-final column on the right, up
to the column width, and every cell of the final column is emitted
unpadded. -/
theorem claim_C2_table_alignment :
    table [["a", "bb"], ["ccc", "d"]] ['l', 'r'] none
        = Except.ok "a    bb\nccc  d" ∧
    (∀ (v : String) (n : Nat),
      tableCell v n (some 'r') false = spaces (n - v.length) ++ v ∧
      tableCell v n (some 'l') false = v ++ spaces (n - v.length) ∧
      tableCell v n (some 'r') true = v ∧
      tableCell v n (some 'l') true = v) := by
  refine ⟨rfl, fun v n => ⟨?_, ?_, ?_, ?_⟩⟩
  · show "" ++ spaces (n - v.length) ++ v = spaces (n - v.length) ++ v
    rw [String.empty_append]
  · show v ++ spaces (n - v.length) ++ "" = v ++ spaces (n - v.length)
    rw [String.append_empty]
  · show "" ++ spaces 0 ++ v = v
    rw [String.empty_append]
    show "" ++ v = v
    rw [String.empty_append]
  · show v ++ spaces 0 ++ "" = v
    rw [String.append_empty]
    show v ++ "" = v
    rw [String.append_empty]

/-- Embedding of the printItems handler for compilation.assets in
DefaultStatsPrinterPlugin.js: an empty items list yields the no-table
signal (undefined, modelled as none) without calling table; otherwise the
bold header row is prepended and the rows are rendered by table with the
alignment string rrrlll. -/
def printItemsAssets (bold : String → String) (items : List (List String)) :
    Except String (Option String) :=
  if items.length = 0 then Except.ok none
  else
    let header := ["Asset", "Size", "Chunks", "", "", "Chunk Names"]
    let boldHeader := header.map (fun h => if h = "" then h else bold h)
    (table (boldHeader :: items) ['r', 'r', 'r', 'l', 'l', 'l'] none).map some

/-- C7 counterexample: table applied to an empty rows array is not
well-defined and does not return the no-table signal: the read of
array[0].length throws, modelled as the error result. -/
theorem claim_C7_counterexample :
    table [] ['r', 'l'] none
      = Except.error "TypeError: cannot read length of undefined" := rfl

/-- C7 amended: the zero-rows guard lives in the printItems handler for
compilation.assets, which returns the no-output signal for an empty items
list without calling table; for every nonempty items list the handler
returns a rendered table, while table itself errors on an empty rows
array. -/
theorem claim_C7_no_table_signal :
    (∀ (bold : String → String), printItemsAssets bold [] = Except.ok none) ∧
    (∀ (bold : String → String) (items : List (List String)),
      items ≠ [] → ∃ s, printItemsAssets bold items = Except.ok (some s)) := by
  constructor
  · intro bold
    rfl
  · intro bold items hne
    cases items with
    | nil => exact absurd rfl hne
    | cons r rs => exact ⟨_, rfl⟩

/-- C7 witness: the amended no-table rule applied at concrete inputs. -/
theorem claim_C7_witness :
    ([["x", "1", "", "", "", ""]] : List (List String)) ≠ [] ∧
    (∃ s, printItemsAssets id [["x", "1", "", "", "", ""]]
        = Except.ok (some s)) :=
  ⟨by decide,
    claim_C7_no_table_signal.2 id [["x", "1", "", "", "", ""]] (by decide)⟩

/-- One collected print element: the element (field) name and its printed
content; undefined content is modelled as the empty string, matching JS
falsiness inside the joiner. -/
structure PrintedElement where
  element : String
  content : String
deriving DecidableEq

/-- The id and name of the module being joined, as compared by the module
element joiner. -/
structure ModuleRef where
  id : String
  name : String

/-- The filter pass of SIMPLE_ELEMENT_JOINERS.module in
DefaultStatsPrinterPlugin.js: walk the element list threading the hasName
flag, always keeping id elements and setting hasName when module.id
equals module.name, dropping name and identifier elements once hasName is
set and otherwise keeping them (setting hasName when their content is
truthy), and keeping every other element unchanged. -/
def moduleJoinerFilter (m : ModuleRef) (hasName : Bool) :
    List PrintedElement → List PrintedElement
  | [] => []
  | item :: rest =>
    if item.element = "id" then
      item :: moduleJoinerFilter m (hasName || (m.id == m.name)) rest
    else if item.element = "name" then
      if hasName then moduleJoinerFilter m hasName rest
      else item :: moduleJoinerFilter m (hasName || !(item.content == "")) rest
    else if item.element = "identifier" then
      if hasName then moduleJoinerFilter m hasName rest
      else item :: moduleJoinerFilter m (hasName || !(item.content == "")) rest
    else item :: moduleJoinerFilter m hasName rest

/-- Embedding of SIMPLE_ELEMENT_JOINERS.module: filter the elements as
above, project the contents, drop falsy contents and join with single
spaces. -/
def moduleElementJoiner (m : ModuleRef) (items : List PrintedElement) : String :=
  String.intercalate " "
    (((moduleJoinerFilter m false items).map (fun i => i.content)).filter
      (fun s => !(s == "")))

theorem moduleJoinerFilter_true (m : ModuleRef) :
    ∀ (items : List PrintedElement),
      moduleJoinerFilter m true items
        = items.filter
            (fun i => !(i.element == "name") && !(i.element == "identifier")) := by
  intro items
  induction items with
  | nil => rfl
  | cons item rest ih =>
      by_cases h1 : item.element = "id"
      · simp [moduleJoinerFilter, h1, ih, List.filter_cons]
      · by_cases h2 : item.element = "name"
        · simp [moduleJoinerFilter, h1, h2, ih, List.filter_cons]
        · by_cases h3 : item.element = "identifier"
          · simp [moduleJoinerFilter, h1, h2, h3, ih, List.filter_cons]
          · simp [moduleJoinerFilter, h1, h2, h3, ih, List.filter_cons]

theorem moduleJoinerFilter_prepend (m : ModuleRef) (hid : m.id = m.name)
    (c : String) :
    ∀ (pre post : List PrintedElement),
      (∀ i ∈ pre, i.element ≠ "name" ∧ i.element ≠ "identifier") →
      ∀ (b : Bool),
      moduleJoinerFilter m b (pre ++ ⟨"id", c⟩ :: post)
        = pre ++ ⟨"id", c⟩ :: moduleJoinerFilter m true post := by
  intro pre post
  induction pre with
  | nil =>
      intro _ b
      simp [moduleJoinerFilter, hid]
  | cons p pre ih =>
      intro hpre b
      have hp := hpre p (by simp)
      have hpre2 : ∀ i ∈ pre, i.element ≠ "name" ∧ i.element ≠ "identifier" :=
        fun i hi => hpre i (by simp [hi])
      by_cases h1 : p.element = "id"
      · simp [moduleJoinerFilter, h1, ih hpre2]
      · simp [moduleJoinerFilter, h1, hp.1, hp.2, ih hpre2]

/-- C5: when the module id equals the module name, the module element
joiner keeps the id element and drops every name (and identifier) element
after it, so the joined line is the space join of the non-name elements
and contains the rendered id content whenever that content is nonempty. -/
theorem claim_C5_module_joiner (m : ModuleRef) (c : String)
    (pre post : List PrintedElement) (hid : m.id = m.name)
    (hpre : ∀ i ∈ pre, i.element ≠ "name" ∧ i.element ≠ "identifier") :
    moduleElementJoiner m (pre ++ ⟨"id", c⟩ :: post)
        = String.intercalate " "
          ((((pre ++ ⟨"id", c⟩ :: post).filter
              (fun i => !(i.element == "name")
                && !(i.element == "identifier"))).map
            (fun i => i.content)).filter (fun s => !(s == ""))) ∧
      (¬(c = "") →
        c ∈ (((pre ++ ⟨"id", c⟩ :: post).filter
              (fun i => !(i.element == "name")
                && !(i.element == "identifier"))).map
            (fun i => i.content)).filter (fun s => !(s == ""))) := by
  have hfilter : moduleJoinerFilter m false (pre ++ ⟨"id", c⟩ :: post)
      = (pre ++ ⟨"id", c⟩ :: post).filter
          (fun i => !(i.element == "name") && !(i.element == "identifier")) := by
    rw [moduleJoinerFilter_prepend m hid c pre post hpre false,
      moduleJoinerFilter_true]
    rw [List.filter_append, List.filter_cons]
    have hpre_eq : pre.filter
        (fun i => !(i.element == "name") && !(i.element == "identifier")) = pre :=
      List.filter_eq_self.mpr (fun i hi => by
        have h := hpre i hi
        simp [h.1, h.2])
    simp [hpre_eq]
  constructor
  · rw [moduleElementJoiner, hfilter]
  · intro hc
    refine List.mem_filter.mpr ⟨?_, by simpa using hc⟩
    refine List.mem_map.mpr ⟨⟨"id", c⟩, ?_, rfl⟩
    refine List.mem_filter.mpr ⟨?_, by rfl⟩
    exact List.mem_append.mpr (Or.inr (List.mem_cons_self _ _))

/-- C5 witness: the joiner at a concrete module whose id equals its name
keeps the id field and leaves out the name field. -/
theorem claim_C5_witness :
    moduleElementJoiner ⟨"5", "5"⟩
        [⟨"id", "[5]"⟩, ⟨"name", "5"⟩, ⟨"built", "[built]"⟩]
      = "[5] [built]" := by
  have h := (claim_C5_module_joiner ⟨"5", "5"⟩ "[5]" []
      [⟨"name", "5"⟩, ⟨"built", "[built]"⟩] rfl (by simp)).1
  rw [List.nil_append] at h
  rw [h]
  rfl

/-- Embedding of the getItemFactory tap for
compilation.children[].compilation in src/unnamed/part_000: given the
per-child options array, build a stats factory from the options at the
child index when the index is below the array length, otherwise return
undefined (no factory).  The factory construction
(createStatsFactory of createStatsOptions) is kept abstract as mkFactory.
-/
def childItemFactory {σ φ : Type} (mkFactory : σ → φ) (children : List σ)
    (idx : Nat) : Option φ :=
  if h : idx < children.length then some (mkFactory (children.get ⟨idx, h⟩))
  else none

/-- C6: the child-item factory resolver returns the factory built from the
per-child options entry at every index strictly below the array length
and returns no factory at every index at or beyond the array length. -/
theorem claim_C6_child_factory :
    ∀ (σ φ : Type) (mkFactory : σ → φ) (children : List σ) (idx : Nat),
      (∀ h : idx < children.length,
        childItemFactory mkFactory children idx
          = some (mkFactory (children.get ⟨idx, h⟩))) ∧
      (children.length ≤ idx →
        childItemFactory mkFactory children idx = none) := by
  intro σ φ mkFactory children idx
  constructor
  · intro h
    rw [childItemFactory, dif_pos h]
  · intro h
    rw [childItemFactory, dif_neg (Nat.not_lt.mpr h)]

/-- C6 witness: the resolver at a concrete two-element options array. -/
theorem claim_C6_witness :
    childItemFactory (fun n : Nat => n + 1) [10, 20] 1 = some 21 ∧
    childItemFactory (fun n : Nat => n + 1) [10, 20] 5 = none :=
  ⟨((claim_C6_child_factory Nat Nat (fun n => n + 1) [10, 20] 1).1
      (by decide)).trans rfl,
    (claim_C6_child_factory Nat Nat (fun n => n + 1) [10, 20] 5).2 (by decide)⟩

/-- Report tree nodes: the plain serializable values the extraction
pipeline builds (strings, numbers, booleans, arrays, string-keyed
objects). -/
inductive StatsNode where
  | str : String → StatsNode
  | num : Int → StatsNode
  | bool : Bool → StatsNode
  | arr : List StatsNode → StatsNode
  | obj : List (String × StatsNode) → StatsNode

/-- Structural equality of report trees, the comparison under which two
extraction runs are compared. -/
def structEq : StatsNode → StatsNode → Bool
  | .str a, .str b => a == b
  | .num a, .num b => a == b
  | .bool a, .bool b => a == b
  | .arr [], .arr [] => true
  | .arr (a :: as), .arr (b :: bs) =>
      structEq a b && structEq (.arr as) (.arr bs)
  | .obj [], .obj [] => true
  | .obj ((k, a) :: as), .obj ((l, b) :: bs) =>
      k == l && structEq a b && structEq (.obj as) (.obj bs)
  | _, _ => false

theorem structEq_refl : ∀ n, structEq n n = true
  | .str a => by simp [structEq]
  | .num a => by simp [structEq]
  | .bool a => by simp [structEq]
  | .arr [] => by simp [structEq]
  | .arr (a :: as) => by
      simp [structEq, structEq_refl a, structEq_refl (.arr as)]
  | .obj [] => by simp [structEq]
  | .obj ((k, a) :: as) => by
      simp [structEq, structEq_refl a, structEq_refl (.obj as)]

/-- Truthiness of the Options keys consumed by the compilation extractors
of src/unnamed/part_000, in the registration (object key) order of
SIMPLE_EXTRACTORS.compilation, plus the children toggle. -/
structure StatsOptions where
  hash : Bool
  version : Bool
  timings : Bool
  builtAt : Bool
  publicPath : Bool
  outputPath : Bool
  assets : Bool
  chunks : Bool
  modules : Bool
  entrypoints : Bool
  chunkGroups : Bool
  children : Bool

/-- The parts of the build session the compilation extractors read.  The
element payloads behind the data-access interface are opaque to the
pipeline and are represented by plain values. -/
structure CompilationData where
  needAdditionalPass : Bool
  hash : String
  publicPath : String
  outputPath : String
  assets : List (String × Nat)
  chunks : List Nat
  modules : List Nat
  entrypoints : List (String × Nat)
  namedChunkGroups : List (String × Nat)
  children : List Nat

/-- Modelled from the spec: the StatsFactory engine
(stats.create and the hook invocation machinery) is not part of the given
sources, so the recursive sub-creations the compilation handlers perform
through factory.create are abstracted as pure functions, one per child
type path, together with the ambient context values (package version,
start and end time). -/
structure ExtractParams where
  version : String
  startTime : Int
  endTime : Int
  createAssets : List (String × Nat) → List StatsNode
  createChunks : List Nat → List StatsNode
  createModules : List Nat → List StatsNode
  createEntrypoints : List (String × Nat) → StatsNode
  createChildren : List Nat → List StatsNode

/-- Modelled from the spec: the extraction pipeline for the compilation
node.  Per section 4.1/4.2 of the spec the engine runs the extract
handlers tapped for the compilation type path in registration order over
one shared output object; the handler bodies below are translated from
SIMPLE_EXTRACTORS.compilation and the children tap of
src/unnamed/part_000, gated exactly as iterateConfig gates them
(the unconditional key always, every other key by its Options
truthiness), with the children tap registered after the config walk when
options.children is truthy.  Each run allocates a fresh empty output
object. -/
def runExtract (p : ExtractParams) (opts : StatsOptions)
    (d : CompilationData) : List (String × StatsNode) :=
  let o : List (String × StatsNode) := []
  let o := if d.needAdditionalPass
    then jsInsert o "needAdditionalPass" (.bool true) else o
  let o := if opts.hash then jsInsert o "hash" (.str d.hash) else o
  let o := if opts.version then jsInsert o "version" (.str p.version) else o
  let o := if opts.timings
    then jsInsert o "time" (.num (p.endTime - p.startTime)) else o
  let o := if opts.builtAt then jsInsert o "builtAt" (.num p.endTime) else o
  let o := if opts.publicPath
    then jsInsert o "publicPath" (.str d.publicPath) else o
  let o := if opts.outputPath
    then jsInsert o "outputPath" (.str d.outputPath) else o
  let o := if opts.assets then
      let created := p.createAssets d.assets
      jsInsert (jsInsert o "assets" (.arr created)) "filteredAssets"
        (.num ((d.assets.length : Int) - (created.length : Int)))
    else o
  let o := if opts.chunks
    then jsInsert o "chunks" (.arr (p.createChunks d.chunks)) else o
  let o := if opts.modules then
      let created := p.createModules d.modules
      jsInsert (jsInsert o "modules" (.arr created)) "filteredModules"
        (.num ((d.modules.length : Int) - (created.length : Int)))
    else o
  let o := if opts.entrypoints
    then jsInsert o "entrypoints" (p.createEntrypoints d.entrypoints) else o
  let o := if opts.chunkGroups
    then jsInsert o "entrypoints" (p.createEntrypoints d.namedChunkGroups)
    else o
  let o := if opts.children
    then jsInsert o "children"
      (.arr (d.children.map (fun _ => .arr (p.createChildren d.children))))
    else o
  o

theorem jsLookup_ite {α : Type} (c : Prop) [Decidable c]
    (a b : List (String × α)) (k : String) :
    jsLookup (if c then a else b) k
      = if c then jsLookup a k else jsLookup b k :=
  apply_ite (fun o => jsLookup o k) c a b

/-- C8: extraction is deterministic: for a fixed Options object and fixed
underlying build data, two runs of the extraction pipeline produce
structurally equal report trees; in the embedding every handler is a pure
function of the options and the data, so there is no hidden cross-run
state. -/
theorem claim_C8_deterministic :
    ∀ (p : ExtractParams) (opts : StatsOptions) (d : CompilationData),
      structEq (.obj (runExtract p opts d)) (.obj (runExtract p opts d))
        = true :=
  fun p opts d => structEq_refl (.obj (runExtract p opts d))

/-- C9: when the chunkGroups option is truthy the chunkGroups extractor
stores the named-chunk-group report under the entrypoints key, built at
the entrypoints type path, overwriting anything the entrypoints extractor
put there, and the output never holds a chunkGroups key. -/
theorem claim_C9_chunkGroups_key (p : ExtractParams) (opts : StatsOptions)
    (d : CompilationData) (h : opts.chunkGroups = true) :
    jsLookup (runExtract p opts d) "entrypoints"
        = some (p.createEntrypoints d.namedChunkGroups) ∧
      jsLookup (runExtract p opts d) "chunkGroups" = none := by
  constructor
  · simp only [runExtract, h, if_true, jsLookup_ite, lookup_jsInsert]
    simp
  · simp only [runExtract, jsLookup_ite, lookup_jsInsert]
    simp [jsLookup]

/-- C9 witness: the key placement at a concrete run with both the
entrypoints and the chunkGroups options enabled. -/
theorem claim_C9_witness :
    jsLookup
        (runExtract
          ⟨"4.0.0", 0, 5, fun _ => [], fun _ => [], fun _ => [],
            fun l => .num (l.length : Int), fun _ => []⟩
          ⟨false, false, false, false, false, false, false, false, false,
            true, true, false⟩
          ⟨false, "h", "pp", "op", [], [], [], [("main", 1)],
            [("main", 1), ("extra", 2)], []⟩)
        "entrypoints" = some (.num 2) ∧
      jsLookup
        (runExtract
          ⟨"4.0.0", 0, 5, fun _ => [], fun _ => [], fun _ => [],
            fun l => .num (l.length : Int), fun _ => []⟩
          ⟨false, false, false, false, false, false, false, false, false,
            true, true, false⟩
          ⟨false, "h", "pp", "op", [], [], [], [("main", 1)],
            [("main", 1), ("extra", 2)], []⟩)
        "chunkGroups" = none :=
  claim_C9_chunkGroups_key _ _ _ rfl

/-- C10: when the children option is truthy the children extract handler
sets the children field to one entry per child session, every entry being
the report of the entire children array, so for n children the field
holds n copies of the full n-element child-report list. -/
theorem claim_C10_children_copies (p : ExtractParams) (opts : StatsOptions)
    (d : CompilationData) (h : opts.children = true) :
    jsLookup (runExtract p opts d) "children"
      = some (.arr (List.replicate d.children.length
          (.arr (p.createChildren d.children)))) := by
  simp only [runExtract, h, if_true, jsLookup_ite, lookup_jsInsert]
  simp [List.map_const']

/-- C10 witness: a concrete run with three children: the children field
holds three copies of the full three-element child-report list. -/
theorem claim_C10_witness :
    jsLookup
        (runExtract
          ⟨"4.0.0", 0, 5, fun _ => [], fun _ => [], fun _ => [],
            fun _ => .bool false, fun l => l.map (fun n => .num (n : Int))⟩
          ⟨false, false, false, false, false, false, false, false, false,
            false, false, true⟩
          ⟨false, "h", "pp", "op", [], [], [], [], [], [7, 8, 9]⟩)
        "children"
      = some (.arr (List.replicate 3
          (.arr [.num 7, .num 8, .num 9]))) :=
  claim_C10_children_copies _ _ _ rfl
